import Mathlib

/-!
# Verification of the `urbit-io` driver core

A shallow embedding of the repository's two source files:

* `src/lib.rs` — the framing layer (`recv_io_requests`, `send_io_responses`);
* `src/http/client.rs` — the HTTP client driver (`Request::try_from_noun`,
  `Response::try_into_noun`, `HttpClient::send_request`,
  `HttpClient::cancel_request`, and the driver loop).

External dependencies (the `noun` structured-value crate, the HTTP library's
request builder / URI parser, and the host-side consumers of outbound frames)
are modelled from the spec's description of their interfaces; every such
definition carries a doc comment saying so.  All machine integers are
modelled as `Nat` with explicit bounds where overflow matters; fallible code
returns `Option`/`Except`.
-/

namespace UrbitIO

/-! ## Structured values (nouns)

Modelled from the spec: the external `noun` crate's value type — an atom
(arbitrary-precision unsigned integer, stored as little-endian bytes with no
trailing zero byte in canonical form) or an ordered pair.  Lists are
right-nested pairs. -/

/-- A structured value: an atom (little-endian byte list) or a pair. -/
inductive Noun where
  | atom (a : List Nat)
  | cell (h t : Noun)
deriving DecidableEq

/-- Numeric value of a little-endian byte list. -/
def leVal : List Nat → Nat
  | [] => 0
  | b :: bs => b + 256 * leVal bs

/-- Little-endian byte expansion with explicit fuel (`fuel ≥ n` suffices). -/
def fromNatAux : Nat → Nat → List Nat
  | _, 0 => []
  | 0, _ + 1 => []
  | fuel + 1, n + 1 => (n + 1) % 256 :: fromNatAux fuel ((n + 1) / 256)

/-- Modelled from the spec: the `noun` crate's `Atom::from` for unsigned
integers — canonical little-endian bytes, no trailing zero. -/
def fromNat (n : Nat) : List Nat := fromNatAux n n

/-- Modelled from the spec: the `noun` crate's `Atom::as_u64` — succeeds
exactly when the (canonical) byte representation fits in eight bytes. -/
def asU64 (a : List Nat) : Option Nat :=
  if a.length ≤ 8 then some (leVal a) else none

/-- Strip trailing zero bytes, producing the canonical atom representation
of the same number. -/
def stripTrailingZeros (l : List Nat) : List Nat :=
  (l.reverse.dropWhile (· == 0)).reverse

theorem leVal_fromNatAux (fuel : Nat) : ∀ n, n ≤ fuel → leVal (fromNatAux fuel n) = n := by
  induction fuel with
  | zero =>
    intro n hn
    interval_cases n
    rfl
  | succ fuel ih =>
    intro n hn
    match n with
    | 0 => rfl
    | m + 1 =>
      rw [fromNatAux, leVal, ih ((m + 1) / 256) (by omega)]
      omega

theorem leVal_fromNat (n : Nat) : leVal (fromNat n) = n :=
  leVal_fromNatAux n n (Nat.le_refl n)

theorem fromNatAux_length_le (k : Nat) :
    ∀ fuel n, n ≤ fuel → n < 256 ^ k → (fromNatAux fuel n).length ≤ k := by
  induction k with
  | zero =>
    intro fuel n hf hn
    interval_cases n
    cases fuel <;> simp [fromNatAux]
  | succ k ih =>
    intro fuel n hf hn
    match fuel, n with
    | _, 0 => simp [fromNatAux]
    | 0, m + 1 => omega
    | fuel + 1, m + 1 =>
      rw [fromNatAux, List.length_cons]
      have hdiv : (m + 1) / 256 < 256 ^ k := by
        rw [pow_succ] at hn
        omega
      have := ih fuel ((m + 1) / 256) (by omega) hdiv
      omega

theorem fromNat_length_le (k : Nat) : ∀ n, n < 256 ^ k → (fromNat n).length ≤ k :=
  fun n hn => fromNatAux_length_le k n n (Nat.le_refl n) hn

theorem asU64_fromNat {n : Nat} (h : n < 2 ^ 64) : asU64 (fromNat n) = some n := by
  have hlen : (fromNat n).length ≤ 8 := fromNat_length_le 8 n (by norm_num at h ⊢; omega)
  simp [asU64, hlen, leVal_fromNat]

/-! ## Text

Texts are lists of Unicode code points.  The `noun` crate converts between
atoms and text via UTF-8 (`Atom::from(&str)` / `Atom::as_str`); we model the
encoding at the byte level. -/

/-- Code points of a string literal (convenience for concrete inputs). -/
def str (s : String) : List Nat := s.data.map Char.toNat

/-- UTF-8 encoding of one code point. -/
def utf8EncodeCp (c : Nat) : List Nat :=
  if c < 0x80 then [c]
  else if c < 0x800 then [0xC0 + c / 64, 0x80 + c % 64]
  else if c < 0x10000 then [0xE0 + c / 4096, 0x80 + c / 64 % 64, 0x80 + c % 64]
  else [0xF0 + c / 262144, 0x80 + c / 4096 % 64, 0x80 + c / 64 % 64, 0x80 + c % 64]

/-- UTF-8 encoding of a text. -/
def utf8Encode : List Nat → List Nat
  | [] => []
  | c :: cs => utf8EncodeCp c ++ utf8Encode cs

/-- Decode one UTF-8 sequence: leader byte `b` followed by `rest`; returns
the code point and the number of continuation bytes consumed (rejecting
invalid sequences, overlong encodings, surrogates, and out-of-range code
points). -/
def utf8DecodeLead (b : Nat) (rest : List Nat) : Option (Nat × Nat) :=
  if b < 0x80 then some (b, 0)
  else if b < 0xC2 then none
  else if b < 0xE0 then
    match rest with
    | b1 :: _ =>
      if 0x80 ≤ b1 ∧ b1 < 0xC0 then some ((b - 0xC0) * 64 + (b1 - 0x80), 1) else none
    | [] => none
  else if b < 0xF0 then
    match rest with
    | b1 :: b2 :: _ =>
      if 0x80 ≤ b1 ∧ b1 < 0xC0 ∧ 0x80 ≤ b2 ∧ b2 < 0xC0 then
        let c := (b - 0xE0) * 4096 + (b1 - 0x80) * 64 + (b2 - 0x80)
        if 0x800 ≤ c ∧ (c < 0xD800 ∨ 0xDFFF < c) then some (c, 2) else none
      else none
    | _ => none
  else if b < 0xF5 then
    match rest with
    | b1 :: b2 :: b3 :: _ =>
      if 0x80 ≤ b1 ∧ b1 < 0xC0 ∧ 0x80 ≤ b2 ∧ b2 < 0xC0 ∧ 0x80 ≤ b3 ∧ b3 < 0xC0 then
        let c := (b - 0xF0) * 262144 + (b1 - 0x80) * 4096 + (b2 - 0x80) * 64 + (b3 - 0x80)
        if 0x10000 ≤ c ∧ c < 0x110000 then some (c, 3) else none
      else none
    | _ => none
  else none

/-- Fuel-driven UTF-8 decoding loop (`fuel ≥ length` suffices). -/
def utf8DecodeAux : Nat → List Nat → Option (List Nat)
  | _, [] => some []
  | 0, _ :: _ => none
  | fuel + 1, b :: rest =>
    match utf8DecodeLead b rest with
    | some (c, k) => (utf8DecodeAux fuel (rest.drop k)).map (c :: ·)
    | none => none

/-- UTF-8 decoding of a byte list, as performed by the `noun` crate's
`Atom::as_str`. -/
def utf8Decode (l : List Nat) : Option (List Nat) := utf8DecodeAux l.length l

/-- Modelled from the spec: `Atom::from(&str)` — the UTF-8 bytes of the
text, normalized to the canonical (trailing-zero-free) representation of
the corresponding number. -/
def strToAtom (t : List Nat) : List Nat := stripTrailingZeros (utf8Encode t)

/-- Modelled from the spec: `Atom::as_str` — UTF-8 decoding of the stored
bytes. -/
def atomAsStr (a : List Nat) : Option (List Nat) := utf8Decode a

/-- A visible-ASCII code point (the characters an HTTP header value can
always represent as text). -/
def isVisible (c : Nat) : Bool := 32 ≤ c && c ≤ 126

theorem utf8Encode_visible {t : List Nat} (h : ∀ c ∈ t, isVisible c) :
    utf8Encode t = t := by
  induction t with
  | nil => rfl
  | cons c cs ih =>
    have hc := h c (by simp)
    simp only [isVisible, Bool.and_eq_true, decide_eq_true_eq] at hc
    rw [utf8Encode, utf8EncodeCp, if_pos (by omega), ih (fun x hx => h x (by simp [hx]))]
    rfl

theorem stripTrailingZeros_of_ne_zero {l : List Nat} (h : ∀ c ∈ l, c ≠ 0) :
    stripTrailingZeros l = l := by
  rw [stripTrailingZeros]
  cases hr : l.reverse with
  | nil => simpa using congrArg List.reverse hr.symm
  | cons a as =>
    have ha : a ∈ l := by
      rw [← List.mem_reverse, hr]; simp
    rw [List.dropWhile_cons_of_neg (by simpa using h a ha), ← hr, List.reverse_reverse]

theorem utf8DecodeAux_visible {t : List Nat} (h : ∀ c ∈ t, isVisible c) :
    ∀ fuel, t.length ≤ fuel → utf8DecodeAux fuel t = some t := by
  induction t with
  | nil => intro fuel _; cases fuel <;> rfl
  | cons c cs ih =>
    intro fuel hf
    have hc := h c (by simp)
    simp only [isVisible, Bool.and_eq_true, decide_eq_true_eq] at hc
    have hl : utf8DecodeLead c cs = some (c, 0) := by
      rw [utf8DecodeLead.eq_def, if_pos (by omega)]
    match fuel with
    | 0 => simp at hf
    | fuel + 1 =>
      rw [utf8DecodeAux, hl]
      simp only [List.drop_zero]
      rw [ih (fun x hx => h x (by simp [hx])) fuel (by simp at hf; omega)]
      rfl

theorem utf8Decode_visible {t : List Nat} (h : ∀ c ∈ t, isVisible c) :
    utf8Decode t = some t :=
  utf8DecodeAux_visible h t.length (Nat.le_refl _)

/-- Text round-trip through atoms, for visible-ASCII texts. -/
theorem atomAsStr_strToAtom {t : List Nat} (h : ∀ c ∈ t, isVisible c) :
    atomAsStr (strToAtom t) = some t := by
  have he := utf8Encode_visible h
  have hz : ∀ c ∈ t, c ≠ 0 := by
    intro c hc
    have := h c hc
    simp only [isVisible, Bool.and_eq_true, decide_eq_true_eq] at this
    omega
  rw [atomAsStr, strToAtom, he, stripTrailingZeros_of_ne_zero hz, utf8Decode_visible h]

/-- Fuel-driven decimal digit expansion (`fuel ≥ n` suffices). -/
def natToTextAux : Nat → Nat → List Nat
  | 0, n => [48 + n % 10]
  | fuel + 1, n =>
    if n < 10 then [48 + n]
    else natToTextAux fuel (n / 10) ++ [48 + n % 10]

/-- Decimal representation of a natural number, as code points (models the
decimal formatting of numeric header values and of ports). -/
def natToText (n : Nat) : List Nat := natToTextAux n n

/-- Modelled from the spec: the `noun` crate's `Cell::as_list::<N>` — the
first `N - 1` heads of a right-nested pair spine plus the final tail. -/
def Noun.asList : Nat → Noun → Option (List Noun)
  | 0, _ => none
  | 1, n => some [n]
  | k + 2, .cell h t => (Noun.asList (k + 1) t).map (h :: ·)
  | _ + 2, .atom _ => none

/-! ## The response encoder (`Response::try_into_noun`, src/http/client.rs) -/

/-- An HTTP response, as the encoder sees it: `parts.headers` is viewed
through `keys()` / `get_all`, i.e. header names in native storage order,
each paired with that name's values in their input iteration order.
`body` is the raw buffered byte content. -/
structure Response where
  req_num : Nat
  status : Nat
  headers : List (List Nat × List (List Nat))
  body : List Nat
deriving DecidableEq

/-- Inner loop of the encoder's header fold: one `(key, value)` pair is
prepended to the accumulated noun list per value of the key.  `none` models
the `todo!("handle ToStrError")` panic on a header value that is not
visible ASCII. -/
def encodeHeaderVals (key : List Nat) (vals : List (List Nat)) (acc : Noun) : Option Noun :=
  match vals with
  | [] => some acc
  | v :: rest =>
    if v.all isVisible then
      encodeHeaderVals key rest (.cell (.cell (.atom (strToAtom key)) (.atom (strToAtom v))) acc)
    else none

/-- Outer loop of the encoder's header fold, over header names. -/
def encodeHeaders (hs : List (List Nat × List (List Nat))) (acc : Noun) : Option Noun :=
  match hs with
  | [] => some acc
  | (k, vs) :: rest => do
    let acc' ← encodeHeaderVals k vs acc
    encodeHeaders rest acc'

/-- Embeds `Response::try_into_noun` from src/http/client.rs: builds the 4-tuple
`[req_num status headers body]`, with the body encoded as the empty-list
sentinel when empty and as `[0 length bytes]` otherwise. -/
def Response.try_into_noun (r : Response) : Option Noun := do
  let headers ← encodeHeaders r.headers (.atom [])
  let body :=
    if r.body.isEmpty then Noun.atom []
    else Noun.cell (.atom [])
      (.cell (.atom (fromNat r.body.length)) (.atom (stripTrailingZeros r.body)))
  some (.cell (.atom (fromNat r.req_num))
    (.cell (.atom (fromNat r.status)) (.cell headers body)))

/-- One `(key, value)` pair per header value, flattened in overall insertion
order: names in native storage order, values of a repeated name in input
order. -/
def flattenHeaders : List (List Nat × List (List Nat)) → List (List Nat × List Nat)
  | [] => []
  | (k, vs) :: rest => vs.map (fun v => (k, v)) ++ flattenHeaders rest

/-- The noun encoding of a flat pair list, in order, null-terminated. -/
def nounOfPairs (ps : List (List Nat × List Nat)) : Noun :=
  ps.foldr (fun p n => .cell (.cell (.atom (strToAtom p.1)) (.atom (strToAtom p.2))) n) (.atom [])

theorem encodeHeaderVals_eq (key : List Nat) (vals : List (List Nat)) (acc : Noun)
    (h : ∀ v ∈ vals, v.all isVisible) :
    encodeHeaderVals key vals acc =
      some ((vals.map (fun v => (key, v))).foldl
        (fun n p => .cell (.cell (.atom (strToAtom p.1)) (.atom (strToAtom p.2))) n) acc) := by
  induction vals generalizing acc with
  | nil => rfl
  | cons v rest ih =>
    rw [encodeHeaderVals, if_pos (h v (by simp))]
    rw [ih _ (fun x hx => h x (by simp [hx]))]
    rfl

theorem encodeHeaders_eq (hs : List (List Nat × List (List Nat))) (acc : Noun)
    (h : ∀ p ∈ hs, ∀ v ∈ p.2, v.all isVisible) :
    encodeHeaders hs acc =
      some ((flattenHeaders hs).foldl
        (fun n p => .cell (.cell (.atom (strToAtom p.1)) (.atom (strToAtom p.2))) n) acc) := by
  induction hs generalizing acc with
  | nil => rfl
  | cons p rest ih =>
    obtain ⟨k, vs⟩ := p
    rw [encodeHeaders, encodeHeaderVals_eq k vs acc (fun v hv => h (k, vs) (by simp) v hv)]
    rw [Option.bind_eq_bind, Option.some_bind]
    rw [ih _ (fun q hq v hv => h q (by simp [hq]) v hv)]
    simp [flattenHeaders, List.foldl_append]

/-- The encoder's header fold produces the flat pair list in reverse overall
insertion order (each new pair is prepended). -/
theorem encodeHeaders_reverse (hs : List (List Nat × List (List Nat)))
    (h : ∀ p ∈ hs, ∀ v ∈ p.2, v.all isVisible) :
    encodeHeaders hs (.atom []) = some (nounOfPairs (flattenHeaders hs).reverse) := by
  rw [encodeHeaders_eq hs (.atom []) h, nounOfPairs, List.foldr_reverse]

/-! ## The host-side response decoder (spec-modelled) -/

/-- A decoded response, per the spec's response vocabulary
`[req_num, status, [[key,val], ...], body_or_empty]`. -/
structure DecodedResponse where
  req_num : Nat
  status : Nat
  headers : List (List Nat × List Nat)
  body : List Nat
deriving DecidableEq

/-- Modelled from the spec: an independent decoder's walk of a
null-terminated list of `(text, text)` header pairs (missing from src/:
only the driver-side encoder exists in this repository). -/
def decodePairs : Noun → Option (List (List Nat × List Nat))
  | .atom a => if a = [] then some [] else none
  | .cell (.cell (.atom k) (.atom v)) rest => do
    let ks ← atomAsStr k
    let vs ← atomAsStr v
    let tl ← decodePairs rest
    some ((ks, vs) :: tl)
  | _ => none

/-- The first `n` little-endian bytes of an atom: the stored bytes padded
with zeros to length `n` (how a `(length, bytes)` pair recovers byte content
whose trailing zeros the numeric atom representation cannot keep). -/
def takeBytes (n : Nat) (a : List Nat) : List Nat :=
  a.take n ++ List.replicate (n - a.length) 0

/-- Modelled from the spec: an independent decoder of the response body —
the empty-list sentinel for an absent body, `[0 length bytes]` otherwise
(missing from src/: only the driver-side encoder exists). -/
def decodeRespBody : Noun → Option (List Nat)
  | .atom a => if a = [] then some [] else none
  | .cell (.atom z) (.cell (.atom len) (.atom bs)) =>
    if z = [] then do
      let n ← asU64 len
      some (takeBytes n bs)
    else none
  | _ => none

/-- Modelled from the spec: an independent decoder of the response
vocabulary `[req_num, status, [[key,val], ...], body_or_empty]` (missing
from src/: responses are decoded by the host process). -/
def decode_response (n : Noun) : Option DecodedResponse :=
  match n with
  | .cell (.atom rn) (.cell (.atom st) (.cell hs bd)) => do
    let req_num ← asU64 rn
    let status ← asU64 st
    if status < 65536 then
      let headers ← decodePairs hs
      let body ← decodeRespBody bd
      some ⟨req_num, status, headers, body⟩
    else none
  | _ => none

theorem strip_append_replicate (l : List Nat) :
    l = stripTrailingZeros l ++
      List.replicate (l.length - (stripTrailingZeros l).length) 0 := by
  have hsplit : l.reverse.takeWhile (· == 0) ++ l.reverse.dropWhile (· == 0) = l.reverse :=
    List.takeWhile_append_dropWhile (· == 0) l.reverse
  have htake : l.reverse.takeWhile (· == 0) =
      List.replicate (l.reverse.takeWhile (· == 0)).length 0 := by
    rw [List.eq_replicate_iff]
    exact ⟨rfl, fun b hb => by simpa using List.mem_takeWhile_imp hb⟩
  have hlen : (stripTrailingZeros l).length + (l.reverse.takeWhile (· == 0)).length
      = l.length := by
    have := congrArg List.length hsplit
    simp only [List.length_append, List.length_reverse] at this
    simp only [stripTrailingZeros, List.length_reverse]
    omega
  have hrev : (l.reverse.takeWhile (· == 0)).reverse
      = List.replicate (l.length - (stripTrailingZeros l).length) 0 := by
    conv_lhs => rw [htake]
    rw [List.reverse_replicate]
    congr 1
    omega
  calc l = l.reverse.reverse := (List.reverse_reverse l).symm
    _ = (l.reverse.takeWhile (· == 0) ++ l.reverse.dropWhile (· == 0)).reverse := by
        rw [hsplit]
    _ = stripTrailingZeros l ++ (l.reverse.takeWhile (· == 0)).reverse := by
        rw [List.reverse_append]; rfl
    _ = stripTrailingZeros l ++
          List.replicate (l.length - (stripTrailingZeros l).length) 0 := by
        rw [hrev]

theorem stripTrailingZeros_length_le (l : List Nat) :
    (stripTrailingZeros l).length ≤ l.length := by
  have := congrArg List.length (strip_append_replicate l)
  simp only [List.length_append, List.length_replicate] at this
  omega

/-- Byte-content round trip: the stored (canonical) atom plus the original
length recover the original bytes. -/
theorem takeBytes_strip (l : List Nat) :
    takeBytes l.length (stripTrailingZeros l) = l := by
  rw [takeBytes, List.take_of_length_le (stripTrailingZeros_length_le l)]
  exact (strip_append_replicate l).symm

theorem decodePairs_nounOfPairs (ps : List (List Nat × List Nat))
    (h : ∀ p ∈ ps, p.1.all isVisible ∧ p.2.all isVisible) :
    decodePairs (nounOfPairs ps) = some ps := by
  induction ps with
  | nil => rfl
  | cons p rest ih =>
    obtain ⟨k, v⟩ := p
    obtain ⟨hk, hv⟩ := h (k, v) (by simp)
    have hk' : ∀ c ∈ k, isVisible c := by simpa [List.all_eq_true] using hk
    have hv' : ∀ c ∈ v, isVisible c := by simpa [List.all_eq_true] using hv
    rw [nounOfPairs, List.foldr_cons]
    rw [show (rest.foldr (fun p n =>
      Noun.cell (.cell (.atom (strToAtom p.1)) (.atom (strToAtom p.2))) n) (.atom []))
      = nounOfPairs rest from rfl]
    rw [decodePairs, atomAsStr_strToAtom hk', atomAsStr_strToAtom hv',
      ih (fun q hq => h q (by simp [hq]))]
    rfl

theorem mem_flattenHeaders {p : List Nat × List Nat} {hs : List (List Nat × List (List Nat))}
    (h : p ∈ flattenHeaders hs) : ∃ vs, (p.1, vs) ∈ hs ∧ p.2 ∈ vs := by
  induction hs with
  | nil => simp [flattenHeaders] at h
  | cons q rest ih =>
    obtain ⟨k, vs⟩ := q
    rw [flattenHeaders] at h
    rcases List.mem_append.mp h with h1 | h2
    · obtain ⟨v, hv, rfl⟩ := List.mem_map.mp h1
      exact ⟨vs, by simp, by simpa⟩
    · obtain ⟨vs', h1', h2'⟩ := ih h2
      exact ⟨vs', by simp [h1'], h2'⟩

theorem decodeRespBody_encode (bs : List Nat) (hbl : bs.length < 2 ^ 64) :
    decodeRespBody (if bs.isEmpty then Noun.atom [] else
      .cell (.atom []) (.cell (.atom (fromNat bs.length)) (.atom (stripTrailingZeros bs))))
      = some bs := by
  by_cases hb : bs.isEmpty
  · rw [if_pos hb, decodeRespBody, if_pos rfl, List.isEmpty_iff.mp hb]
  · rw [if_neg hb, decodeRespBody, if_pos rfl, asU64_fromNat hbl,
      Option.bind_eq_bind, Option.some_bind, takeBytes_strip]

/-- C2: the response encoder emits one `(key, value)` pair per header value,
iterating names in native storage order and a name's values in input order,
prepending each pair, so the encoded header list is the flat pair list in
reverse overall insertion order. -/
theorem response_header_encoding_order (r : Response)
    (h : ∀ p ∈ r.headers, ∀ v ∈ p.2, v.all isVisible) :
    ∃ body, Response.try_into_noun r =
      some (.cell (.atom (fromNat r.req_num)) (.cell (.atom (fromNat r.status))
        (.cell (nounOfPairs (flattenHeaders r.headers).reverse) body))) := by
  refine ⟨if r.body.isEmpty then Noun.atom [] else
      .cell (.atom []) (.cell (.atom (fromNat r.body.length))
        (.atom (stripTrailingZeros r.body))), ?_⟩
  rw [Response.try_into_noun, encodeHeaders_reverse r.headers h]
  rfl

/-- Concrete check of C2 (repeated name, two values, second name after). -/
theorem response_header_encoding_order_witness :
    ∃ body, Response.try_into_noun
        ⟨107, 200, [(str "vary", [str "Origin", str "AE"]), (str "x-c", [str "HIT"])],
          str "ok"⟩ =
      some (.cell (.atom (fromNat 107)) (.cell (.atom (fromNat 200))
        (.cell (nounOfPairs (flattenHeaders
          [(str "vary", [str "Origin", str "AE"]), (str "x-c", [str "HIT"])]).reverse) body))) :=
  response_header_encoding_order
    ⟨107, 200, [(str "vary", [str "Origin", str "AE"]), (str "x-c", [str "HIT"])], str "ok"⟩
    (by decide)

/-- C1: encoding a response and decoding the result with the independent
(spec-modelled) decoder of the response vocabulary yields the original
request number, status, header pairs up to order normalization (the decoded
list is the reverse of the flattened original, hence the same multiset),
and the original body. -/
theorem response_roundtrip (r : Response)
    (hk : ∀ p ∈ r.headers, p.1.all isVisible)
    (hv : ∀ p ∈ r.headers, ∀ v ∈ p.2, v.all isVisible)
    (hrn : r.req_num < 2 ^ 64) (hst : r.status < 2 ^ 16) (hbl : r.body.length < 2 ^ 64) :
    ∃ n, Response.try_into_noun r = some n ∧
      decode_response n =
        some ⟨r.req_num, r.status, (flattenHeaders r.headers).reverse, r.body⟩ ∧
      ((flattenHeaders r.headers).reverse : Multiset (List Nat × List Nat)) =
        (flattenHeaders r.headers : Multiset (List Nat × List Nat)) := by
  have hvmem : ∀ p ∈ (flattenHeaders r.headers).reverse,
      p.1.all isVisible ∧ p.2.all isVisible := by
    intro p hp
    rw [List.mem_reverse] at hp
    obtain ⟨vs, h1, h2⟩ := mem_flattenHeaders hp
    exact ⟨hk _ h1, hv _ h1 _ h2⟩
  have hst' : r.status < 65536 := by omega
  have hst64 : r.status < 2 ^ 64 := by omega
  refine ⟨.cell (.atom (fromNat r.req_num)) (.cell (.atom (fromNat r.status))
      (.cell (nounOfPairs (flattenHeaders r.headers).reverse)
        (if r.body.isEmpty then Noun.atom [] else
          .cell (.atom []) (.cell (.atom (fromNat r.body.length))
            (.atom (stripTrailingZeros r.body)))))), ?_, ?_, ?_⟩
  · rw [Response.try_into_noun, encodeHeaders_reverse r.headers hv]
    rfl
  · simp only [decode_response]
    rw [asU64_fromNat hrn, Option.bind_eq_bind, Option.some_bind,
      asU64_fromNat hst64, Option.bind_eq_bind, Option.some_bind,
      if_pos hst',
      decodePairs_nounOfPairs _ hvmem, Option.bind_eq_bind, Option.some_bind,
      decodeRespBody_encode r.body hbl, Option.some_bind]
  · exact Multiset.coe_eq_coe.mpr (List.reverse_perm _)

/-- Concrete check of C1. -/
theorem response_roundtrip_witness :
    ∃ n, Response.try_into_noun
        ⟨107, 200, [(str "vary", [str "Origin", str "AE"]), (str "x-c", [str "HIT"])],
          str "ok"⟩ = some n ∧
      decode_response n =
        some ⟨107, 200, (flattenHeaders
          [(str "vary", [str "Origin", str "AE"]), (str "x-c", [str "HIT"])]).reverse,
          str "ok"⟩ ∧
      ((flattenHeaders [(str "vary", [str "Origin", str "AE"]),
          (str "x-c", [str "HIT"])]).reverse : Multiset (List Nat × List Nat)) =
        (flattenHeaders [(str "vary", [str "Origin", str "AE"]),
          (str "x-c", [str "HIT"])] : Multiset (List Nat × List Nat)) :=
  response_roundtrip
    ⟨107, 200, [(str "vary", [str "Origin", str "AE"]), (str "x-c", [str "HIT"])], str "ok"⟩
    (by decide) (by decide) (by decide) (by decide) (by decide)

/-! ## The framing layer (src/lib.rs) -/

/-- 8-byte little-endian encoding of a `u64` length. -/
def u64le (n : Nat) : List Nat :=
  [n % 256, n / 256 % 256, n / 256 ^ 2 % 256, n / 256 ^ 3 % 256,
   n / 256 ^ 4 % 256, n / 256 ^ 5 % 256, n / 256 ^ 6 % 256, n / 256 ^ 7 % 256]

theorem leVal_u64le {n : Nat} (h : n < 2 ^ 64) : leVal (u64le n) = n := by
  simp [u64le, leVal]
  omega

/-- Embeds `send_io_responses` from src/lib.rs: for each outgoing payload, write
the 8-byte little-endian length, then the payload bytes (the writer adds no
tag byte to outbound frames). -/
def send_io_responses : List (List Nat) → List Nat
  | [] => []
  | p :: rest => u64le p.length ++ p ++ send_io_responses rest

/-- Modelled from the spec: the host-side reader of outbound frames
(`u64-LE length | length bytes payload`) — missing from src/, since
outbound frames are consumed by the host process.  `none` models a
truncated stream. -/
def readFrames (s : List Nat) : Option (List (List Nat)) :=
  if s = [] then some []
  else if s.length < 8 then none
  else if (s.drop 8).length < leVal (s.take 8) then none
  else do
    let tl ← readFrames ((s.drop 8).drop (leVal (s.take 8)))
    some ((s.drop 8).take (leVal (s.take 8)) :: tl)
termination_by s.length
decreasing_by
  simp only [List.length_drop]
  omega

/-- C5: writing N payloads through the frame write loop and reading the
byte stream back through an independent reader of the outbound frame
format yields the original N payloads in the same order. -/
theorem framing_roundtrip (ps : List (List Nat)) (h : ∀ p ∈ ps, p.length < 2 ^ 64) :
    readFrames (send_io_responses ps) = some ps := by
  induction ps with
  | nil => rw [send_io_responses, readFrames]; simp
  | cons p rest ih =>
    have hp : p.length < 2 ^ 64 := h p (by simp)
    have h8 : (u64le p.length).length = 8 := rfl
    rw [send_io_responses, readFrames]
    rw [if_neg (by simp [u64le])]
    rw [if_neg (by simp [u64le])]
    rw [List.append_assoc]
    rw [List.take_append_of_le_length (by rw [h8]), List.drop_append_of_le_length (by rw [h8])]
    rw [show (u64le p.length).take 8 = u64le p.length from by rw [← h8, List.take_length]]
    rw [show (u64le p.length).drop 8 = [] from by rw [← h8, List.drop_length]]
    rw [List.nil_append, leVal_u64le hp]
    rw [if_neg (by simp)]
    rw [List.drop_left, List.take_left, ih (fun q hq => h q (by simp [hq]))]
    rfl

/-- Concrete check of C5 (three payloads, one of them empty). -/
theorem framing_roundtrip_witness :
    readFrames (send_io_responses [[1, 2], [0, 3], []]) = some [[1, 2], [0, 3], []] :=
  framing_roundtrip [[1, 2], [0, 3], []] (by decide)

/-- Outcome of the frame read loop: the payloads delivered to the HTTP
driver channel, with normal termination (`break`) or a fatal `todo!()`
path. -/
inductive RecvResult where
  | normal (sent : List (List Nat))
  | fatal (sent : List (List Nat))
deriving DecidableEq

/-- Prepend a delivered payload to a loop outcome. -/
def RecvResult.consMsg (p : List Nat) : RecvResult → RecvResult
  | .normal sent => .normal (p :: sent)
  | .fatal sent => .fatal (p :: sent)

/-- Embeds `recv_io_requests` from src/lib.rs: read an 8-byte little-endian
length (fewer than 8 bytes remaining models `read_u64_le` returning
`UnexpectedEof`, which breaks the loop normally, as does a length of 0);
read one tag byte; read exactly `length - 1` payload bytes; route tag 0 to
the HTTP driver channel.  A missing tag byte, a short payload read, or an
unknown tag is a `todo!()` — modelled as a fatal outcome. -/
def recv_io_requests (s : List Nat) : RecvResult :=
  if s.length < 8 then .normal []
  else
    let len := leVal (s.take 8)
    if len = 0 then .normal []
    else
      match h9 : s.drop 8 with
      | [] => .fatal []
      | tag :: rest =>
        if rest.length < len - 1 then .fatal []
        else if tag = 0 then
          RecvResult.consMsg (rest.take (len - 1)) (recv_io_requests (rest.drop (len - 1)))
        else .fatal []
termination_by s.length
decreasing_by
  have hlen := congrArg List.length h9
  simp only [List.length_drop, List.length_cons] at hlen
  simp only [List.length_drop]
  omega

/-- C8: the frame read loop reads an 8-byte little-endian length first;
a clean end-of-stream and an explicit length of 0 both terminate the loop
normally, while a well-formed nonempty frame with tag 0 delivers its
payload and continues with the remaining bytes. -/
theorem frame_read_loop_termination :
    recv_io_requests [] = .normal [] ∧
    (∀ rest, recv_io_requests (u64le 0 ++ rest) = .normal []) ∧
    (∀ (p rest : List Nat), p.length + 1 < 2 ^ 64 →
      recv_io_requests (u64le (p.length + 1) ++ 0 :: (p ++ rest)) =
        RecvResult.consMsg p (recv_io_requests rest)) := by
  refine ⟨by rw [recv_io_requests]; simp, ?_, ?_⟩
  · intro rest
    rw [recv_io_requests.eq_def]
    by_cases hlt : (u64le 0 ++ rest).length < 8
    · rw [if_pos hlt]
    · rw [if_neg hlt]
      have h8 : (u64le 0).length = 8 := rfl
      rw [List.take_append_of_le_length (by rw [h8])]
      rw [show (u64le 0).take 8 = u64le 0 from by rw [← h8, List.take_length]]
      rw [leVal_u64le (by norm_num)]
      simp
  · intro p rest hp
    have h8 : (u64le (p.length + 1)).length = 8 := rfl
    rw [recv_io_requests.eq_def]
    rw [if_neg (by simp [u64le])]
    rw [List.take_append_of_le_length (by rw [h8]), List.drop_append_of_le_length (by rw [h8])]
    rw [show (u64le (p.length + 1)).take 8 = u64le (p.length + 1) from by
      rw [← h8, List.take_length]]
    rw [show (u64le (p.length + 1)).drop 8 = [] from by rw [← h8, List.drop_length]]
    rw [List.nil_append, leVal_u64le hp]
    rw [if_neg (by omega)]
    simp only [Nat.add_sub_cancel]
    rw [if_neg (by simp)]
    simp [List.drop_left, List.take_left]

/-- Concrete check of C8: length 0 terminates even with trailing bytes;
a 3-byte frame (tag plus 2-byte payload) is delivered and the loop
continues. -/
theorem frame_read_loop_termination_witness :
    recv_io_requests (u64le 0 ++ [1, 2, 3]) = .normal [] ∧
    recv_io_requests (u64le ([5, 6].length + 1) ++ 0 :: ([5, 6] ++ [])) =
      RecvResult.consMsg [5, 6] (recv_io_requests []) :=
  ⟨frame_read_loop_termination.2.1 [1, 2, 3],
    frame_read_loop_termination.2.2 [5, 6] [] (by decide)⟩

/-! ## The request decoder (`Request::try_from_noun`, src/http/client.rs) -/

namespace convert

/-- The `noun` crate's `convert::Error` (the variants used by the driver). -/
inductive Error where
  | AtomToStr
  | AtomToUint
  | ImplType
  | MissingValue
  | UnexpectedAtom
  | UnexpectedCell
deriving DecidableEq

end convert

/-- An ASCII letter. -/
def isAlpha (c : Nat) : Bool := (65 ≤ c && c ≤ 90) || (97 ≤ c && c ≤ 122)

/-- An ASCII digit. -/
def isDigit (c : Nat) : Bool := 48 ≤ c && c ≤ 57

/-- Value of a nonempty ASCII digit string. -/
def digitsToNat (ds : List Nat) : Nat := ds.foldl (fun acc c => acc * 10 + (c - 48)) 0

/-- Characters the model URI parser accepts. -/
def uriChar (c : Nat) : Bool :=
  isDigit c || isAlpha c ||
  ([33, 35, 36, 37, 38, 39, 40, 41, 42, 43, 44, 45, 46, 47, 58, 59, 61, 63, 64,
    91, 93, 95, 126] : List Nat).contains c

/-- An HTTP token character (RFC 7230), as accepted for methods and header
names. -/
def tokenChar (c : Nat) : Bool :=
  isDigit c || isAlpha c ||
  ([33, 35, 36, 37, 38, 39, 42, 43, 45, 46, 94, 95, 96, 124, 126] : List Nat).contains c

/-- The view of a parsed URI that the driver consumes: optional host and
optional port. -/
structure ParsedUri where
  host? : Option (List Nat)
  port? : Option Nat
deriving DecidableEq

/-- Split an authority into host and optional port. -/
def splitHostPort (auth : List Nat) : Option (List Nat × Option Nat) :=
  if auth.isEmpty then none
  else if auth.contains 58 then
    let host := auth.takeWhile (fun c => c != 58)
    let portStr := (auth.dropWhile (fun c => c != 58)).drop 1
    if !host.isEmpty && !portStr.isEmpty && portStr.all isDigit &&
        digitsToNat portStr < 65536 then
      some (host, some (digitsToNat portStr))
    else none
  else some (auth, none)

/-- Modelled from the spec: the external HTTP library's URI parser, reduced
to what the driver consumes — validity, host, and port.  Accepts
`scheme://host[:port][/...]`, origin-form `/...` (valid, no host), and a
bare authority `host[:port]`; rejects the empty string, characters outside
the URI character set, and an unparsable authority. -/
def parseUri (u : List Nat) : Option ParsedUri :=
  if u.isEmpty || !u.all uriChar then none
  else if u.head? = some 47 then some ⟨none, none⟩
  else
    let scheme := u.takeWhile isAlpha
    let rest := u.dropWhile isAlpha
    if !scheme.isEmpty && rest.take 3 = [58, 47, 47] then
      (splitHostPort ((rest.drop 3).takeWhile
        (fun c => c != 47 && c != 63 && c != 35))).map (fun hp => ⟨some hp.1, hp.2⟩)
    else if u.all (fun c => c != 47 && c != 63 && c != 35) then
      (splitHostPort u).map (fun hp => ⟨some hp.1, hp.2⟩)
    else none

/-- A valid HTTP method string. -/
def isValidMethod (m : List Nat) : Bool := !m.isEmpty && m.all tokenChar

/-- A valid header name. -/
def validHeaderName (k : List Nat) : Bool := !k.isEmpty && k.all tokenChar

/-- A valid header value string. -/
def validHeaderValue (v : List Nat) : Bool := v.all isVisible

/-- Header-name normalization to lower case, as the HTTP library stores
names. -/
def normName (k : List Nat) : List Nat :=
  k.map (fun c => if 65 ≤ c ∧ c ≤ 90 then c + 32 else c)

/-- The state of a successfully building request. -/
structure BuilderCore where
  method : List Nat
  uri : ParsedUri
  headers : List (List Nat × List Nat)
deriving DecidableEq

/-- Modelled from the spec: the HTTP library's request builder.  An invalid
method, URI, or header turns the builder into an error carrier; every later
operation preserves the error and the getters return `none`. -/
abbrev Builder := Except Unit BuilderCore

/-- A fresh builder (default method GET, origin-form default URI). -/
def Builder.new : Builder := .ok ⟨str "GET", ⟨none, none⟩, []⟩

/-- Models `builder.method(m)`. -/
def builderMethod (b : Builder) (m : List Nat) : Builder :=
  match b with
  | .error e => .error e
  | .ok c => if isValidMethod m then .ok { c with method := m } else .error ()

/-- Models `builder.uri(u)`. -/
def builderUri (b : Builder) (u : List Nat) : Builder :=
  match b with
  | .error e => .error e
  | .ok c =>
    match parseUri u with
    | some pu => .ok { c with uri := pu }
    | none => .error ()

/-- Models `builder.header(k, v)`: appends — never replaces — a header pair. -/
def builderHeader (b : Builder) (k v : List Nat) : Builder :=
  match b with
  | .error e => .error e
  | .ok c =>
    if validHeaderName k && validHeaderValue v then
      .ok { c with headers := c.headers ++ [(normName k, v)] }
    else .error ()

/-- Models `builder.uri_ref()`: `none` when the builder carries an error. -/
def uriRef (b : Builder) : Option ParsedUri :=
  match b with
  | .ok c => some c.uri
  | .error _ => none

/-- An HTTP request as decoded by the driver: request number plus the parts
of the built `hyper` request. -/
structure Request where
  req_num : Nat
  method : List Nat
  uri : ParsedUri
  headers : List (List Nat × List Nat)
  body : List Nat
deriving DecidableEq

/-- Models `builder.body(b)`: fails when the builder carries an error. -/
def builderBody (b : Builder) (req_num : Nat) (body : List Nat) : Except Unit Request :=
  match b with
  | .ok c => .ok ⟨req_num, c.method, c.uri, c.headers, body⟩
  | .error e => .error e

/-- Embeds `atom_as_str` from `Request::try_from_noun`: text extraction with the
`AtomToStr` error. -/
def atomAsStrE (a : List Nat) : Except convert.Error (List Nat) :=
  match atomAsStr a with
  | some s => .ok s
  | none => .error .AtomToStr

/-- The header walk in `Request::try_from_noun`: each element of the
right-nested list must be a pair of two atoms; the walk stops at the first
atom tail. -/
def walkHeaders (b : Builder) : Noun → Except convert.Error Builder
  | .cell hd tl =>
    match hd with
    | .cell (.atom k) (.atom v) => do
      let ks ← atomAsStrE k
      let vs ← atomAsStrE v
      walkHeaders (builderHeader b ks vs) tl
    | .cell _ _ => .error .UnexpectedCell
    | .atom _ => .error .UnexpectedAtom
  | .atom _ => .ok b

/-- The body match in `Request::try_from_noun`: any atom means no body
(length 0); a cell must be `[0 body_len body]` with atom length and
content. -/
def decodeBody : Noun → Except convert.Error (Nat × List Nat)
  | .atom _ => .ok (0, [])
  | .cell b1 b2 =>
    match (Noun.cell b1 b2).asList 3 with
    | some [_null, blen, bbytes] =>
      match blen, bbytes with
      | .atom blen, .atom bbytes => do
        let n ← match asU64 blen with
          | some n => Except.ok n
          | none => Except.error convert.Error.AtomToUint
        let s ← atomAsStrE bbytes
        .ok (n, s)
      | _, _ => .error .UnexpectedCell
    | _ => .error .MissingValue

/-- The host block in `Request::try_from_noun`: `uri_ref` (None on a
builder error), then host and optional port formatted as `host:port`. -/
def hostOf (b : Builder) : Except convert.Error (List Nat) :=
  match uriRef b with
  | none => .error .MissingValue
  | some pu =>
    match pu.host?, pu.port? with
    | some h, some p => .ok (h ++ 58 :: natToText p)
    | some h, none => .ok h
    | none, _ => .error .MissingValue

/-- Main body of `Request::try_from_noun` after the five-element
destructuring: `req_num`, `method`, `uri` contents, then the header walk,
the body match, the host computation, and the final build with the
computed `Content-Length` and `Host` headers appended. -/
def decodeCore (rn m u : List Nat) (headers body : Noun) : Except convert.Error Request := do
  let req_num ← match asU64 rn with
    | some n => Except.ok n
    | none => Except.error convert.Error.AtomToUint
  let ms ← atomAsStrE m
  let us ← atomAsStrE u
  let b := builderUri (builderMethod Builder.new ms) us
  let b ← walkHeaders b headers
  let (blen, btext) ← decodeBody body
  let host ← hostOf b
  let b := builderHeader (builderHeader b (str "Content-Length") (natToText blen))
    (str "Host") host
  match builderBody b req_num btext with
  | .ok r => .ok r
  | .error _ => .error .ImplType

/-- Embeds `Request::try_from_noun` from src/http/client.rs. -/
def Request.try_from_noun (req : Noun) : Except convert.Error Request :=
  match req with
  | .cell h t =>
    match (Noun.cell h t).asList 5 with
    | some [rn, m, u, hs, bd] =>
      match rn, m, u with
      | .atom rn, .atom m, .atom u => decodeCore rn m u hs bd
      | _, _, _ => .error .UnexpectedCell
    | _ => .error .MissingValue
  | .atom _ => .error .UnexpectedCell

instance {ε α : Type} [DecidableEq ε] [DecidableEq α] : DecidableEq (Except ε α) := fun x y =>
  match x, y with
  | .ok u, .ok v => if h : u = v then isTrue (by rw [h]) else isFalse (by simp [h])
  | .error u, .error v => if h : u = v then isTrue (by rw [h]) else isFalse (by simp [h])
  | .ok _, .error _ => isFalse (by simp)
  | .error _, .ok _ => isFalse (by simp)

/-! ## The HTTP client driver state (src/http/client.rs)

The in-flight table is owned by the driver's own task and mutated only by
its command loop, so the driver is modelled as a state machine: command
processing transforms the table; a spawned task's natural completion is a
separate event that — per the source — never touches the table. -/

/-- The phase of a spawned request task, as held by its `JoinHandle`. -/
inductive TaskPhase where
  | running
  | completed
deriving DecidableEq

/-- The driver state: the in-flight request table
(`HashMap<u64, JoinHandle<()>>`), modelled as an association list with
unique keys. -/
structure HttpClient where
  inflight_req : List (Nat × TaskPhase)
deriving DecidableEq

/-- Models `HashMap::insert`: overwrite any stale entry under the key. -/
def insertEntry (k : Nat) (v : TaskPhase) (t : List (Nat × TaskPhase)) :
    List (Nat × TaskPhase) :=
  (k, v) :: t.filter (fun e => !(e.1 == k))

/-- Models `HashMap::remove`. -/
def removeEntry (k : Nat) (t : List (Nat × TaskPhase)) : List (Nat × TaskPhase) :=
  t.filter (fun e => !(e.1 == k))

/-- Observable effect of processing one command: spawning the request task
for a request number.  Responses originate only from spawned tasks, so a
command that spawns nothing can never produce a response. -/
inductive Effect where
  | spawn (req_num : Nat)
deriving DecidableEq

/-- Embeds `HttpClient::send_request`: decode the payload; on failure, log and
return — no task is spawned and no table entry is added; on success, spawn
the request task and record its handle under `req_num`, overwriting any
stale prior entry. -/
def send_request (st : HttpClient) (req : Noun) : HttpClient × List Effect :=
  match Request.try_from_noun req with
  | .error _ => (st, [])
  | .ok r => (⟨insertEntry r.req_num .running st.inflight_req⟩, [.spawn r.req_num])

/-- Embeds `HttpClient::cancel_request`: the payload must be an atom fitting u64;
a present entry is removed (and its task aborted); an absent entry, an
oversized atom, or a cell payload is a logged no-op. -/
def cancel_request (st : HttpClient) (req : Noun) : HttpClient :=
  match req with
  | .atom a =>
    match asU64 a with
    | some rn =>
      match List.lookup rn st.inflight_req with
      | some _ => ⟨removeEntry rn st.inflight_req⟩
      | none => st
    | none => st
  | .cell _ _ => st

/-- One iteration of the driver loop (`HttpClient::run`): a command must be
a cell `[tag payload]` with an atom tag equal to `%request` or
`%cancel-request`; anything else is logged and ignored. -/
def processCommand (st : HttpClient) (cmd : Noun) : HttpClient × List Effect :=
  match cmd with
  | .cell (.atom tag) payload =>
    if tag = strToAtom (str "request") then send_request st payload
    else if tag = strToAtom (str "cancel-request") then (cancel_request st payload, [])
    else (st, [])
  | .cell (.cell _ _) _ => (st, [])
  | .atom _ => (st, [])

/-- The driver loop over a list of inbound commands, accumulating effects. -/
def processAll (st : HttpClient) : List Noun → HttpClient × List Effect
  | [] => (st, [])
  | c :: rest =>
    let p := processCommand st c
    let q := processAll p.1 rest
    (q.1, p.2 ++ q.2)

/-- Natural completion of the spawned task for `rn`: the task's handle
becomes a completed handle, but `HttpClient::run` never touches the
in-flight table at that moment — no entry is removed. -/
def task_complete (st : HttpClient) (rn : Nat) : HttpClient :=
  ⟨st.inflight_req.map (fun e => if e.1 == rn then (e.1, TaskPhase.completed) else e)⟩

/-- A fully valid request payload `[1 'GET' 'http://example.com' 0 0]`. -/
def reqNounOK : Noun :=
  .cell (.atom (fromNat 1)) (.cell (.atom (strToAtom (str "GET")))
    (.cell (.atom (strToAtom (str "http://example.com")))
      (.cell (.atom []) (.atom []))))

/-- A request payload with a malformed URI (contains a space). -/
def reqNounBadUri : Noun :=
  .cell (.atom (fromNat 1)) (.cell (.atom (strToAtom (str "GET")))
    (.cell (.atom (strToAtom (str "ht tp")))
      (.cell (.atom []) (.atom []))))

/-- A request payload whose URI has no host (origin-form). -/
def reqNounNoHost : Noun :=
  .cell (.atom (fromNat 1)) (.cell (.atom (strToAtom (str "GET")))
    (.cell (.atom (strToAtom (str "/index.html")))
      (.cell (.atom []) (.atom []))))

/-- A request payload missing the body field (only four elements). -/
def reqNounMissing : Noun :=
  .cell (.atom (fromNat 1)) (.cell (.atom (strToAtom (str "GET")))
    (.cell (.atom (strToAtom (str "http://example.com"))) (.atom [])))

/-- A request payload whose method atom is not valid UTF-8. -/
def reqNounBadMethod : Noun :=
  .cell (.atom (fromNat 1)) (.cell (.atom [255])
    (.cell (.atom (strToAtom (str "http://example.com")))
      (.cell (.atom []) (.atom []))))

/-- A request payload whose request number does not fit in a u64. -/
def reqNounOverflow : Noun :=
  .cell (.atom [0, 0, 0, 0, 0, 0, 0, 0, 1]) (.cell (.atom (strToAtom (str "GET")))
    (.cell (.atom (strToAtom (str "http://example.com")))
      (.cell (.atom []) (.atom []))))

theorem lookup_removeEntry (k : Nat) (t : List (Nat × TaskPhase)) :
    List.lookup k (removeEntry k t) = none := by
  induction t with
  | nil => rfl
  | cons e rest ih =>
    by_cases he : e.1 = k
    · simpa [removeEntry, List.filter_cons, he] using ih
    · simpa [removeEntry, List.filter_cons, he, List.lookup,
        beq_false_of_ne (Ne.symm he)] using ih

/-- C7: cancelling is always a no-op that leaves the table unchanged when
the payload is a cell, when the atom does not fit a u64, or when no entry
exists for the request number; `cancel_request` is a total function — it
never errors and never panics. -/
theorem cancel_request_safety :
    (∀ (st : HttpClient) (h t : Noun), cancel_request st (.cell h t) = st) ∧
    (∀ (st : HttpClient) (a : List Nat), asU64 a = none →
      cancel_request st (.atom a) = st) ∧
    (∀ (st : HttpClient) (a : List Nat) (rn : Nat), asU64 a = some rn →
      List.lookup rn st.inflight_req = none → cancel_request st (.atom a) = st) := by
  refine ⟨fun st h t => rfl, fun st a ha => ?_, fun st a rn ha hl => ?_⟩
  · simp only [cancel_request, ha]
  · simp only [cancel_request, ha, hl]

/-- Concrete check of C7: an oversized atom, a cell, and an absent entry. -/
theorem cancel_request_safety_witness :
    cancel_request ⟨[(2, .running)]⟩ (.cell (.atom []) (.atom [])) = ⟨[(2, .running)]⟩ ∧
    cancel_request ⟨[(2, .running)]⟩ (.atom [0, 0, 0, 0, 0, 0, 0, 0, 1]) = ⟨[(2, .running)]⟩ ∧
    cancel_request ⟨[(2, .running)]⟩ (.atom (fromNat 1)) = ⟨[(2, .running)]⟩ :=
  ⟨cancel_request_safety.1 _ _ _,
   cancel_request_safety.2.1 _ _ (by decide),
   cancel_request_safety.2.2 _ _ 1 (by decide) (by decide)⟩

/-- C6: a `request` command whose payload fails to decode spawns no task
(hence can never produce a response), adds no entry to the in-flight table,
and is simply dropped — processing the rest of the command stream is
unaffected. -/
theorem decode_failure_drops_command (st : HttpClient) (p : Noun) (e : convert.Error)
    (h : Request.try_from_noun p = .error e) :
    processCommand st (.cell (.atom (strToAtom (str "request"))) p) = (st, []) ∧
    ∀ rest, processAll st ((Noun.cell (.atom (strToAtom (str "request"))) p) :: rest) =
      processAll st rest := by
  have hcmd : processCommand st (.cell (.atom (strToAtom (str "request"))) p) = (st, []) := by
    simp only [processCommand, if_pos rfl, send_request, h, if_true]
  exact ⟨hcmd, fun rest => by simp only [processAll, hcmd, List.nil_append]⟩

/-- Concrete check of C6: a payload missing the body field and a payload
with a non-UTF-8 method are both dropped with no effect. -/
theorem decode_failure_drops_command_witness :
    (processCommand ⟨[]⟩ (.cell (.atom (strToAtom (str "request"))) reqNounMissing) =
      (⟨[]⟩, []) ∧
     ∀ rest, processAll ⟨[]⟩ ((Noun.cell (.atom (strToAtom (str "request")))
       reqNounMissing) :: rest) = processAll ⟨[]⟩ rest) ∧
    (processCommand ⟨[]⟩ (.cell (.atom (strToAtom (str "request"))) reqNounBadMethod) =
      (⟨[]⟩, []) ∧
     ∀ rest, processAll ⟨[]⟩ ((Noun.cell (.atom (strToAtom (str "request")))
       reqNounBadMethod) :: rest) = processAll ⟨[]⟩ rest) :=
  ⟨decode_failure_drops_command ⟨[]⟩ reqNounMissing .MissingValue (by decide),
   decode_failure_drops_command ⟨[]⟩ reqNounBadMethod .AtomToStr (by decide)⟩

/-- C3 counterexample: dispatch a valid request (request number 1), then
let its spawned task complete naturally — the entry for 1 is still in the
in-flight table (holding the completed handle), so natural completion does
not remove entries. -/
theorem task_completion_keeps_entry_counterexample :
    List.lookup 1 ((task_complete
      (processCommand ⟨[]⟩ (.cell (.atom (strToAtom (str "request"))) reqNounOK)).1
      1).inflight_req) = some .completed := by decide

theorem task_complete_keys (st : HttpClient) (rn : Nat) :
    (task_complete st rn).inflight_req.map Prod.fst = st.inflight_req.map Prod.fst := by
  rw [task_complete]
  simp only [List.map_map]
  apply List.map_congr_left
  intro e _
  by_cases h : e.1 = rn <;> simp [h]

/-- C3 (amended): an entry is created when a request command decodes and is
dispatched; a matching cancel removes the entry (aborting the task); but
natural task completion leaves the table's keys unchanged — the stale entry
remains until cancelled, overwritten, or drained at shutdown. -/
theorem inflight_lifecycle :
    (∀ (st : HttpClient) (p : Noun) (r : Request), Request.try_from_noun p = .ok r →
      (send_request st p).1.inflight_req = insertEntry r.req_num .running st.inflight_req ∧
      List.lookup r.req_num (send_request st p).1.inflight_req = some .running) ∧
    (∀ (st : HttpClient) (rn : Nat), rn < 2 ^ 64 →
      List.lookup rn st.inflight_req ≠ none →
      cancel_request st (.atom (fromNat rn)) = ⟨removeEntry rn st.inflight_req⟩ ∧
      List.lookup rn (removeEntry rn st.inflight_req) = none) ∧
    (∀ (st : HttpClient) (rn : Nat),
      (task_complete st rn).inflight_req.map Prod.fst = st.inflight_req.map Prod.fst) := by
  refine ⟨fun st p r h => ?_, fun st rn hrn hl => ?_, task_complete_keys⟩
  · simp only [send_request, h]
    exact ⟨by simp, by simp [insertEntry, List.lookup]⟩
  · cases hlk : List.lookup rn st.inflight_req with
    | none => exact absurd hlk hl
    | some v =>
      constructor
      · simp only [cancel_request, asU64_fromNat hrn, hlk]
      · exact lookup_removeEntry rn st.inflight_req

/-- Concrete check of C3 (amended): create, complete (entry stays), cancel
(entry removed). -/
theorem inflight_lifecycle_witness :
    ((send_request ⟨[]⟩ reqNounOK).1.inflight_req =
      insertEntry 1 .running ([] : List (Nat × TaskPhase)) ∧
     List.lookup 1 (send_request ⟨[]⟩ reqNounOK).1.inflight_req = some .running) ∧
    (cancel_request ⟨[(1, .completed)]⟩ (.atom (fromNat 1)) =
      ⟨removeEntry 1 [(1, .completed)]⟩ ∧
     List.lookup 1 (removeEntry 1 [(1, .completed)]) = none) ∧
    (task_complete ⟨[(1, .running)]⟩ 1).inflight_req.map Prod.fst =
      ([(1, TaskPhase.running)] : List (Nat × TaskPhase)).map Prod.fst := by
  refine ⟨?_, ?_, inflight_lifecycle.2.2 ⟨[(1, .running)]⟩ 1⟩
  · have := inflight_lifecycle.1 ⟨[]⟩ reqNounOK
      ⟨1, str "GET", ⟨some (str "example.com"), none⟩,
        [(str "content-length", str "0"), (str "host", str "example.com")], []⟩ (by decide)
    exact this
  · exact inflight_lifecycle.2.1 ⟨[(1, .completed)]⟩ 1 (by decide) (by decide)

/-- The caller-supplied header pairs of a request noun's header list: the
texts of each `(key value)` pair of the right-nested list. -/
def headersFromNoun : Noun → Option (List (List Nat × List Nat))
  | .atom _ => some []
  | .cell (.cell (.atom k) (.atom v)) rest => do
    let ks ← atomAsStr k
    let vs ← atomAsStr v
    let tl ← headersFromNoun rest
    some ((ks, vs) :: tl)
  | .cell _ _ => none

theorem except_bind_ok {ε α β : Type} (a : α) (f : α → Except ε β) :
    (Except.ok a >>= f) = f a := rfl

theorem except_bind_error {ε α β : Type} (e : ε) (f : α → Except ε β) :
    ((Except.error e : Except ε α) >>= f) = .error e := rfl

theorem walkHeaders_ok : ∀ (hn : Noun) (b b' : Builder), walkHeaders b hn = .ok b' →
    ∃ hs, headersFromNoun hn = some hs ∧
      b' = hs.foldl (fun bb p => builderHeader bb p.1 p.2) b := by
  intro hn
  induction hn with
  | atom a =>
    intro b b' h
    exact ⟨[], rfl, (Except.ok.inj h).symm⟩
  | cell hd tl ih1 ih2 =>
    intro b b' h
    rcases hd with a | ⟨k', v'⟩
    · simp [walkHeaders] at h
    · rcases k' with k | ⟨_, _⟩
      · rcases v' with v | ⟨_, _⟩
        · simp only [walkHeaders] at h
          cases hk : atomAsStr k with
          | none =>
            rw [show atomAsStrE k = .error .AtomToStr from by rw [atomAsStrE, hk],
              except_bind_error] at h
            exact absurd h (by simp)
          | some ks =>
            rw [show atomAsStrE k = .ok ks from by rw [atomAsStrE, hk],
              except_bind_ok] at h
            cases hv : atomAsStr v with
            | none =>
              rw [show atomAsStrE v = .error .AtomToStr from by rw [atomAsStrE, hv],
                except_bind_error] at h
              exact absurd h (by simp)
            | some vs =>
              rw [show atomAsStrE v = .ok vs from by rw [atomAsStrE, hv],
                except_bind_ok] at h
              obtain ⟨hs', htl, hb'⟩ := ih2 (builderHeader b ks vs) b' h
              refine ⟨(ks, vs) :: hs', ?_, ?_⟩
              · rw [headersFromNoun, hk, hv, htl]
                rfl
              · rw [hb', List.foldl_cons]
        · simp [walkHeaders] at h
      · simp [walkHeaders] at h

theorem foldl_builderHeader_ok :
    ∀ (hs : List (List Nat × List Nat)) (b : Builder) (c' : BuilderCore),
      hs.foldl (fun bb p => builderHeader bb p.1 p.2) b = .ok c' →
      ∃ c : BuilderCore, b = .ok c ∧
        c'.headers = c.headers ++ hs.map (fun p => (normName p.1, p.2)) := by
  intro hs
  induction hs with
  | nil =>
    intro b c' h
    exact ⟨c', h, by simp⟩
  | cons p rest ih =>
    intro b c' h
    rw [List.foldl_cons] at h
    obtain ⟨cb, hcb, hhdrs⟩ := ih (builderHeader b p.1 p.2) c' h
    cases b with
    | error e => simp [builderHeader] at hcb
    | ok c =>
      simp only [builderHeader] at hcb
      by_cases hv : (validHeaderName p.1 && validHeaderValue p.2) = true
      · rw [if_pos hv] at hcb
        have hcb' := Except.ok.inj hcb
        refine ⟨c, rfl, ?_⟩
        rw [hhdrs, ← hcb']
        simp
      · rw [if_neg hv] at hcb
        exact absurd hcb (by simp)

theorem atomAsStrE_ok {a s : List Nat} (h : atomAsStr a = some s) :
    atomAsStrE a = .ok s := by rw [atomAsStrE, h]

theorem atomAsStrE_error {a : List Nat} (h : atomAsStr a = none) :
    atomAsStrE a = .error .AtomToStr := by rw [atomAsStrE, h]

theorem base_builder_headers {ms us : List Nat} {c0 : BuilderCore}
    (h : builderUri (builderMethod Builder.new ms) us = .ok c0) : c0.headers = [] := by
  rw [Builder.new] at h
  simp only [builderMethod] at h
  by_cases hm : isValidMethod ms = true
  · rw [if_pos hm] at h
    simp only [builderUri] at h
    cases hpu : parseUri us with
    | none => rw [hpu] at h; exact absurd h (by simp)
    | some pu =>
      rw [hpu] at h
      rw [← Except.ok.inj h]
  · rw [if_neg hm] at h
    simp only [builderUri] at h
    exact absurd h (by simp)

/-- Success structure of the decode pipeline: a successfully decoded
request carries exactly the caller-supplied headers (in order, names
normalized) followed by the computed `Content-Length` (valued from the
decoded body length) and `Host` headers, and its body is the decoded body
text. -/
theorem decodeCore_ok_structure {rn m u : List Nat} {hs bd : Noun} {r : Request}
    (h : decodeCore rn m u hs bd = .ok r) :
    ∃ (callerHs : List (List Nat × List Nat)) (blen : Nat) (host : List Nat),
      headersFromNoun hs = some callerHs ∧
      decodeBody bd = .ok (blen, r.body) ∧
      r.headers = callerHs.map (fun p => (normName p.1, p.2)) ++
        [(str "content-length", natToText blen), (str "host", host)] := by
  unfold decodeCore at h
  cases h1 : asU64 rn with
  | none => rw [h1] at h; simp [except_bind_error] at h
  | some rq =>
    rw [h1] at h
    simp only [except_bind_ok] at h
    cases h2 : atomAsStr m with
    | none => rw [atomAsStrE_error h2, except_bind_error] at h; simp at h
    | some ms =>
      rw [atomAsStrE_ok h2, except_bind_ok] at h
      cases h3 : atomAsStr u with
      | none => rw [atomAsStrE_error h3, except_bind_error] at h; simp at h
      | some us =>
        rw [atomAsStrE_ok h3, except_bind_ok] at h
        cases h4 : walkHeaders (builderUri (builderMethod Builder.new ms) us) hs with
        | error e => rw [h4, except_bind_error] at h; simp at h
        | ok bW =>
          rw [h4, except_bind_ok] at h
          cases h5 : decodeBody bd with
          | error e => rw [h5, except_bind_error] at h; simp at h
          | ok q =>
            obtain ⟨blen, btext⟩ := q
            rw [h5, except_bind_ok] at h
            cases h6 : hostOf bW with
            | error e => rw [h6, except_bind_error] at h; simp at h
            | ok host =>
              rw [h6, except_bind_ok] at h
              cases hB2 : builderHeader (builderHeader bW (str "Content-Length")
                  (natToText blen)) (str "Host") host with
              | error e =>
                rw [show builderBody (builderHeader (builderHeader bW (str "Content-Length")
                    (natToText blen)) (str "Host") host) rq btext = .error e from by
                  rw [hB2, builderBody]] at h
                simp at h
              | ok c2 =>
                rw [show builderBody (builderHeader (builderHeader bW (str "Content-Length")
                    (natToText blen)) (str "Host") host) rq btext =
                    .ok ⟨rq, c2.method, c2.uri, c2.headers, btext⟩ from by
                  rw [hB2, builderBody]] at h
                have hr : r = ⟨rq, c2.method, c2.uri, c2.headers, btext⟩ :=
                  (Except.ok.inj h).symm
                have hfold2 : List.foldl (fun bb p => builderHeader bb p.1 p.2) bW
                    [(str "Content-Length", natToText blen), (str "Host", host)] = .ok c2 :=
                  hB2
                obtain ⟨cw, hcw, hc2hdrs⟩ := foldl_builderHeader_ok _ _ _ hfold2
                obtain ⟨callerHs, hcaller, hbWfold⟩ := walkHeaders_ok hs _ _ h4
                rw [hbWfold] at hcw
                obtain ⟨c0, hc0, hcwhdrs⟩ := foldl_builderHeader_ok _ _ _ hcw
                have hbase : c0.headers = [] := base_builder_headers hc0
                refine ⟨callerHs, blen, host, hcaller, ?_, ?_⟩
                · rw [hr]
                · rw [hr]
                  show c2.headers = _
                  rw [hc2hdrs, hcwhdrs, hbase]
                  simp [normName, str]

/-- Header list noun with one caller-supplied header `X-A: b`. -/
def hdrsNounW : Noun :=
  .cell (.cell (.atom (strToAtom (str "X-A"))) (.atom (strToAtom (str "b")))) (.atom [])

/-- Body noun `[0 2 'hi']`. -/
def bodyNounW : Noun :=
  .cell (.atom []) (.cell (.atom (fromNat 2)) (.atom (strToAtom (str "hi"))))

/-- The request decoded from `reqNounPost`. -/
def reqW : Request :=
  ⟨7, str "POST", ⟨some (str "example.com"), some 8080⟩,
    [(str "x-a", str "b"), (str "content-length", str "2"),
     (str "host", str "example.com:8080")], str "hi"⟩

/-- A full request payload with a caller header, a port, and a body. -/
def reqNounPost : Noun :=
  .cell (.atom (fromNat 7)) (.cell (.atom (strToAtom (str "POST")))
    (.cell (.atom (strToAtom (str "https://example.com:8080/x")))
      (.cell hdrsNounW bodyNounW)))

/-- C9: a successfully decoded request carries the computed
`Content-Length` header (valued from the decoded body length) and the
`Host` header appended after — not replacing — the caller-supplied headers,
which are preserved in full and in order. -/
theorem request_computed_headers_appended (rn m u : List Nat) (hs bd : Noun) (r : Request)
    (h : Request.try_from_noun (.cell (.atom rn) (.cell (.atom m) (.cell (.atom u)
      (.cell hs bd)))) = .ok r) :
    ∃ (callerHs : List (List Nat × List Nat)) (blen : Nat) (host : List Nat),
      headersFromNoun hs = some callerHs ∧
      decodeBody bd = .ok (blen, r.body) ∧
      r.headers = callerHs.map (fun p => (normName p.1, p.2)) ++
        [(str "content-length", natToText blen), (str "host", host)] :=
  decodeCore_ok_structure (show decodeCore rn m u hs bd = .ok r from h)

/-- Concrete check of C9: the caller's `X-A: b` header is preserved
(lower-cased) and `content-length: 2` and `host: example.com:8080` are
appended after it. -/
theorem request_computed_headers_appended_witness :
    ∃ (callerHs : List (List Nat × List Nat)) (blen : Nat) (host : List Nat),
      headersFromNoun hdrsNounW = some callerHs ∧
      decodeBody bodyNounW = .ok (blen, reqW.body) ∧
      reqW.headers = callerHs.map (fun p => (normName p.1, p.2)) ++
        [(str "content-length", natToText blen), (str "host", host)] :=
  request_computed_headers_appended (fromNat 7) (strToAtom (str "POST"))
    (strToAtom (str "https://example.com:8080/x")) hdrsNounW bodyNounW reqW (by decide)

/-- C10: a request whose body field is any atom — not only the zero
empty-list sentinel — decodes exactly as with any other atom there (the
atom's value is never inspected), and a successful decode has an empty
body and a computed `Content-Length` of 0. -/
theorem body_atom_ignored (n m u hs : Noun) (a b : List Nat) :
    Request.try_from_noun (.cell n (.cell m (.cell u (.cell hs (.atom a))))) =
      Request.try_from_noun (.cell n (.cell m (.cell u (.cell hs (.atom b))))) ∧
    (∀ r, Request.try_from_noun (.cell n (.cell m (.cell u (.cell hs (.atom a))))) = .ok r →
      r.body = [] ∧ ∃ (callerHs : List (List Nat × List Nat)) (host : List Nat),
        r.headers = callerHs ++
          [(str "content-length", natToText 0), (str "host", host)]) := by
  constructor
  · rcases n with x | ⟨nh, nt⟩ <;> rcases m with y | ⟨mh, mt⟩ <;>
      rcases u with z | ⟨uh, ut⟩ <;> rfl
  · intro r hr
    rcases n with x | ⟨nh, nt⟩
    · rcases m with y | ⟨mh, mt⟩
      · rcases u with z | ⟨uh, ut⟩
        · obtain ⟨callerHs, blen, host, _, hb, hh⟩ :=
            decodeCore_ok_structure (show decodeCore x y z hs (.atom a) = .ok r from hr)
          rw [show decodeBody (Noun.atom a) =
            Except.ok ((0 : Nat), ([] : List Nat)) from rfl] at hb
          have hp := Except.ok.inj hb
          have hblen : 0 = blen := congrArg Prod.fst hp
          have hbody : r.body = [] := (congrArg Prod.snd hp).symm
          refine ⟨hbody, callerHs.map (fun p => (normName p.1, p.2)), host, ?_⟩
          rw [hh, ← hblen]
        · exact Except.noConfusion hr
      · exact Except.noConfusion hr
    · exact Except.noConfusion hr

/-- Concrete check of C10: body atom `[5, 7]` decodes identically to body
atom `0`, with empty body and `content-length: 0`. -/
theorem body_atom_ignored_witness :
    (Request.try_from_noun (.cell (.atom (fromNat 1)) (.cell (.atom (strToAtom (str "GET")))
      (.cell (.atom (strToAtom (str "http://example.com")))
        (.cell (.atom []) (.atom [5, 7]))))) =
     Request.try_from_noun (.cell (.atom (fromNat 1)) (.cell (.atom (strToAtom (str "GET")))
      (.cell (.atom (strToAtom (str "http://example.com")))
        (.cell (.atom []) (.atom []))))) ) ∧
    (∀ r, Request.try_from_noun (.cell (.atom (fromNat 1))
        (.cell (.atom (strToAtom (str "GET")))
          (.cell (.atom (strToAtom (str "http://example.com")))
            (.cell (.atom []) (.atom [5, 7]))))) = .ok r →
      r.body = [] ∧ ∃ (callerHs : List (List Nat × List Nat)) (host : List Nat),
        r.headers = callerHs ++
          [(str "content-length", natToText 0), (str "host", host)]) :=
  body_atom_ignored (.atom (fromNat 1)) (.atom (strToAtom (str "GET")))
    (.atom (strToAtom (str "http://example.com"))) (.atom []) [5, 7] []

/-- C4 counterexample: three different failure conditions — missing list
elements, a malformed URI, and a URI with no host — all yield the same
`MissingValue` error, so the failure conditions are not mapped to pairwise
distinct decode errors as the claim states. -/
theorem decode_error_collision_counterexample :
    Request.try_from_noun reqNounMissing = .error .MissingValue ∧
    Request.try_from_noun reqNounBadUri = .error .MissingValue ∧
    Request.try_from_noun reqNounNoHost = .error .MissingValue := by decide

/-- C4 (amended): decoding is a total pure function whose failures map to
errors as follows — missing list elements give `MissingValue`, a request
number exceeding u64 gives `AtomToUint`, a non-UTF-8 text atom gives
`AtomToStr` (three pairwise distinct errors), but a malformed URI and a URI
without a host are both reported as `MissingValue`, the same error as
missing list elements. -/
theorem decode_error_taxonomy :
    (∀ (a b c : Noun) (d : List Nat),
      Request.try_from_noun (.cell a (.cell b (.cell c (.atom d)))) =
        .error .MissingValue) ∧
    (∀ (a m u : List Nat) (hs bd : Noun), asU64 a = none →
      Request.try_from_noun (.cell (.atom a) (.cell (.atom m) (.cell (.atom u)
        (.cell hs bd)))) = .error .AtomToUint) ∧
    (∀ (a m u : List Nat) (hs bd : Noun) (rq : Nat), asU64 a = some rq →
      atomAsStr m = none →
      Request.try_from_noun (.cell (.atom a) (.cell (.atom m) (.cell (.atom u)
        (.cell hs bd)))) = .error .AtomToStr) ∧
    (∀ (a m u : List Nat) (rq : Nat) (ms us : List Nat),
      asU64 a = some rq → atomAsStr m = some ms → atomAsStr u = some us →
      parseUri us = none →
      Request.try_from_noun (.cell (.atom a) (.cell (.atom m) (.cell (.atom u)
        (.cell (.atom []) (.atom []))))) = .error .MissingValue) ∧
    (∀ (a m u : List Nat) (rq : Nat) (ms us : List Nat) (p : Option Nat),
      asU64 a = some rq → atomAsStr m = some ms → atomAsStr u = some us →
      parseUri us = some ⟨none, p⟩ →
      Request.try_from_noun (.cell (.atom a) (.cell (.atom m) (.cell (.atom u)
        (.cell (.atom []) (.atom []))))) = .error .MissingValue) := by
  refine ⟨fun a b c d => rfl, ?_, ?_, ?_, ?_⟩
  · intro a m u hs bd h
    show decodeCore a m u hs bd = .error .AtomToUint
    unfold decodeCore
    rw [h]
    rfl
  · intro a m u hs bd rq h1 h2
    show decodeCore a m u hs bd = .error .AtomToStr
    unfold decodeCore
    rw [h1, atomAsStrE_error h2]
    rfl
  · intro a m u rq ms us h1 h2 h3 h4
    show decodeCore a m u (.atom []) (.atom []) = .error .MissingValue
    unfold decodeCore
    rw [h1, atomAsStrE_ok h2, atomAsStrE_ok h3]
    simp only [except_bind_ok]
    have hbu : builderUri (builderMethod Builder.new ms) us = .error () := by
      cases hbm : builderMethod Builder.new ms with
      | error e => cases e; rfl
      | ok c => simp [builderUri, h4]
    rw [hbu]
    rfl
  · intro a m u rq ms us p h1 h2 h3 h4
    show decodeCore a m u (.atom []) (.atom []) = .error .MissingValue
    unfold decodeCore
    rw [h1, atomAsStrE_ok h2, atomAsStrE_ok h3]
    simp only [except_bind_ok]
    cases hbm : builderMethod Builder.new ms with
    | error e => rfl
    | ok c =>
      rw [show builderUri (Except.ok c) us = Except.ok { c with uri := ⟨none, p⟩ } from by
        simp [builderUri, h4]]
      rfl

/-- Concrete check of C4 (amended): the five failure families at concrete
inputs. -/
theorem decode_error_taxonomy_witness :
    Request.try_from_noun reqNounMissing = .error .MissingValue ∧
    Request.try_from_noun reqNounOverflow = .error .AtomToUint ∧
    Request.try_from_noun reqNounBadMethod = .error .AtomToStr ∧
    Request.try_from_noun reqNounBadUri = .error .MissingValue ∧
    Request.try_from_noun reqNounNoHost = .error .MissingValue :=
  ⟨decode_error_taxonomy.1 _ _ _ _,
   decode_error_taxonomy.2.1 _ _ _ _ _ (by decide),
   decode_error_taxonomy.2.2.1 _ _ _ _ _ 1 (by decide) (by decide),
   decode_error_taxonomy.2.2.2.1 _ _ _ 1 (str "GET") (str "ht tp")
     (by decide) (by decide) (by decide) (by decide),
   decode_error_taxonomy.2.2.2.2 _ _ _ 1 (str "GET") (str "/index.html") none
     (by decide) (by decide) (by decide) (by decide)⟩

end UrbitIO
